import Mathlib

/-!
# Verification of the GolfMotion landmark post-processing and swing segmentation core

Shallow embedding of the three pipeline components of the repository:

* `ConfidenceInterpolator` (source `ConfidenceInterpolator.getCurrent`): replaces a
  low-confidence joint with a confidence-weighted blend from the previous buffered frame.
* `OneEuroFilter` / `LandmarkSmoother` (source `OneEuroFilter.filter`,
  `LandmarkSmoother.smooth`): adaptive per-channel low-pass smoothing.
* `SwingPhaseDetector.analyze` (source `src/services/swingPhaseDetector.ts`): batch
  segmentation of a recording into swing phases.

Numbers are embedded as exact rationals (`ℚ`).  The two transcendental operations of the
source, `Math.atan2(...)*180/π` (used only for the shoulder-line angle) and the constant
`2 * Math.PI` inside the one-euro blend coefficient, are abstracted as explicit parameters
(`a2 : ℚ → ℚ → ℚ`, `twoPi : ℚ`); every theorem below quantifies over them, so it holds in
particular for the true transcendental values.
-/

/-- A MediaPipe `NormalizedLandmark`: position plus optional depth and optional
confidence, mirroring the defensive `lm.z ?? 0` / `lm.visibility ?? 0` reads of the
source. -/
structure Landmark where
  x : ℚ
  y : ℚ
  z : Option ℚ
  visibility : Option ℚ
deriving Repr, DecidableEq

/-- A frame: the landmark list produced by the detector for one video instant. -/
abbrev Frame := List Landmark

/-! ## Confidence interpolator (`ConfidenceInterpolator`, source part_003) -/

namespace ConfidenceInterpolator

/-- The per-joint correction performed inside `getCurrent`'s `cur.map` callback
(source lines 46–66): a joint whose confidence is below the 0.5 threshold is blended
with the previous buffered frame's joint when that one meets the threshold.
`pOpt` is `prev?.[i]` (absent when there is no previous frame or the index is out of
range). -/
def interpLandmark (lm : Landmark) (pOpt : Option Landmark) : Landmark :=
  let vis := lm.visibility.getD 0
  if 1/2 ≤ vis then lm
  else
    match pOpt with
    | some pLm =>
      let pVis := pLm.visibility.getD 0
      if 1/2 ≤ pVis then
        let w := vis / (vis + pVis + 1/1000000)
        ⟨lm.x * w + pLm.x * (1 - w),
         lm.y * w + pLm.y * (1 - w),
         some ((lm.z.getD 0) * w + ((pLm.z.getD 0)) * (1 - w)),
         some (max vis (pVis * (4/5)))⟩
      else lm
    | none => lm

/-- Interpolator state: ring buffer of the most recent frames (source fields
`buffer`, `head`, `count`, `size`). -/
structure State where
  size : ℕ
  buffer : List (Option Frame)
  head : ℕ
  count : ℕ
deriving Repr

/-- `new ConfidenceInterpolator(bufferSize)` (minimum enforced capacity 3). -/
def State.new (bufferSize : ℕ) : State :=
  ⟨max 3 bufferSize, List.replicate (max 3 bufferSize) none, 0, 0⟩

/-- `push(landmarks)`: store at head, advance head, saturate count. -/
def State.push (st : State) (lms : Frame) : State :=
  ⟨st.size, st.buffer.set st.head (some lms), (st.head + 1) % st.size,
   if st.count < st.size then st.count + 1 else st.count⟩

/-- `getCurrent()`: correct the most recently pushed frame against its predecessor. -/
def State.getCurrent (st : State) : Option Frame :=
  if st.count < 1 then none
  else
    match st.buffer.getD ((st.head + st.size - 1) % st.size) none with
    | none => none
    | some cur =>
      let prev : Option Frame :=
        if 2 ≤ st.count then st.buffer.getD ((st.head + st.size - 2) % st.size) none
        else none
      some (cur.mapIdx fun i lm => interpLandmark lm (prev.bind fun p => p.get? i))

end ConfidenceInterpolator

/-- A two-point blend with weights `w` and `1 - w`, `w ∈ [0,1]`, stays inside the
closed interval spanned by the two points. -/
lemma blend_between (a b w : ℚ) (h0 : 0 ≤ w) (h1 : w ≤ 1) :
    min a b ≤ a * w + b * (1 - w) ∧ a * w + b * (1 - w) ≤ max a b := by
  constructor
  · rcases le_total a b with h | h
    · rw [min_eq_left h]
      nlinarith [mul_nonneg (sub_nonneg.mpr h) (sub_nonneg.mpr h1)]
    · rw [min_eq_right h]
      nlinarith [mul_nonneg (sub_nonneg.mpr h) h0]
  · rcases le_total a b with h | h
    · rw [max_eq_right h]
      nlinarith [mul_nonneg (sub_nonneg.mpr h) h0]
    · rw [max_eq_left h]
      nlinarith [mul_nonneg (sub_nonneg.mpr h) (sub_nonneg.mpr h1)]

namespace ConfidenceInterpolator

/-- In the low-confidence branch the blend weight `w = vis / (vis + pVis + 1e-6)`
lies in `[0, 1]`. -/
lemma weight_mem_unit (vis pVis : ℚ) (h0 : 0 ≤ vis) (hp : 1/2 ≤ pVis) :
    0 ≤ vis / (vis + pVis + 1/1000000) ∧ vis / (vis + pVis + 1/1000000) ≤ 1 := by
  have hden : 0 < vis + pVis + 1/1000000 := by linarith
  constructor
  · exact div_nonneg h0 hden.le
  · rw [div_le_one hden]
    linarith

/-- The corrected landmark in the low-confidence branch, spelled out. -/
lemma interpLandmark_low (lm pLm : Landmark)
    (hc : lm.visibility.getD 0 < 1/2) (hp : 1/2 ≤ pLm.visibility.getD 0) :
    interpLandmark lm (some pLm) =
      ⟨lm.x * (lm.visibility.getD 0 / (lm.visibility.getD 0 + pLm.visibility.getD 0 + 1/1000000))
         + pLm.x * (1 - lm.visibility.getD 0 / (lm.visibility.getD 0 + pLm.visibility.getD 0 + 1/1000000)),
       lm.y * (lm.visibility.getD 0 / (lm.visibility.getD 0 + pLm.visibility.getD 0 + 1/1000000))
         + pLm.y * (1 - lm.visibility.getD 0 / (lm.visibility.getD 0 + pLm.visibility.getD 0 + 1/1000000)),
       some ((lm.z.getD 0) * (lm.visibility.getD 0 / (lm.visibility.getD 0 + pLm.visibility.getD 0 + 1/1000000))
         + (pLm.z.getD 0) * (1 - lm.visibility.getD 0 / (lm.visibility.getD 0 + pLm.visibility.getD 0 + 1/1000000))),
       some (max (lm.visibility.getD 0) (pLm.visibility.getD 0 * (4/5)))⟩ := by
  rw [interpLandmark]
  simp only [not_le.mpr hc, if_false, if_pos hp]

end ConfidenceInterpolator

/-- **C1 (counterexample).** The claim states that in a low/high-confidence correction
the reported confidence equals `max(cur, prev) * 0.8` and is at most that value.  At
`cur = 0.45`, `prev = 0.5` the code (`Math.max(vis, pVis * 0.8)`) reports `0.45`, while
`max(0.45, 0.5) * 0.8 = 0.4`, so both the equality and the bound of the claim fail. -/
theorem interp_confidence_claim_counterexample :
    (ConfidenceInterpolator.interpLandmark ⟨0, 0, some 0, some (9/20)⟩
        (some ⟨1, 1, some 0, some (1/2)⟩)).visibility = some (9/20) ∧
    ¬ ((9/20 : ℚ) ≤ max (9/20 : ℚ) (1/2) * (4/5)) := by
  constructor
  · rw [ConfidenceInterpolator.interpLandmark_low] <;> norm_num
  · rw [max_eq_right (by norm_num : (9/20 : ℚ) ≤ 1/2)]
    norm_num

/-- **C1 (amended).** For a `getCurrent` correction in which the current joint's
confidence is below 0.5 and the previous buffered joint's confidence is at least 0.5,
the reported confidence of the blended joint equals
`max(cur, prev * 0.8)` — the maximum of the current confidence and the previous
confidence scaled down by the damping factor 0.8 — and in particular it is at most
`max(cur, prev)`. -/
theorem interp_confidence_eq (lm pLm : Landmark)
    (hc : lm.visibility.getD 0 < 1/2) (hp : 1/2 ≤ pLm.visibility.getD 0) :
    (ConfidenceInterpolator.interpLandmark lm (some pLm)).visibility
        = some (max (lm.visibility.getD 0) (pLm.visibility.getD 0 * (4/5))) ∧
    max (lm.visibility.getD 0) (pLm.visibility.getD 0 * (4/5))
        ≤ max (lm.visibility.getD 0) (pLm.visibility.getD 0) := by
  constructor
  · rw [ConfidenceInterpolator.interpLandmark_low lm pLm hc hp]
  · have hnn : (0:ℚ) ≤ pLm.visibility.getD 0 := le_trans (by norm_num) hp
    exact max_le_max le_rfl (by nlinarith)

/-- **C1 (witness).** Evaluates the amended statement at `cur = 0.45`, `prev = 0.5`. -/
theorem interp_confidence_eq_witness :
    ((⟨0, 0, some 0, some (9/20)⟩ : Landmark).visibility.getD 0 < 1/2 ∧
       1/2 ≤ (⟨1, 1, some 0, some (1/2)⟩ : Landmark).visibility.getD 0) ∧
    ((ConfidenceInterpolator.interpLandmark ⟨0, 0, some 0, some (9/20)⟩
          (some ⟨1, 1, some 0, some (1/2)⟩)).visibility
        = some (max ((9/20 : ℚ)) ((1/2 : ℚ) * (4/5))) ∧
      max ((9/20 : ℚ)) ((1/2 : ℚ) * (4/5)) ≤ max ((9/20 : ℚ)) ((1/2 : ℚ))) :=
  ⟨⟨by norm_num, by norm_num⟩,
   interp_confidence_eq ⟨0, 0, some 0, some (9/20)⟩ ⟨1, 1, some 0, some (1/2)⟩
     (by norm_num) (by norm_num)⟩

/-- **C5.** For a `getCurrent` correction in which the current joint's confidence is
below 0.5 (and nonnegative, as confidences are) and the previous buffered joint's
confidence is at least 0.5, each blended coordinate is a convex combination of the
current and previous coordinates, hence lies between them (inclusive). -/
theorem interp_coord_convex (lm pLm : Landmark)
    (h0 : 0 ≤ lm.visibility.getD 0)
    (hc : lm.visibility.getD 0 < 1/2) (hp : 1/2 ≤ pLm.visibility.getD 0) :
    (min lm.x pLm.x ≤ (ConfidenceInterpolator.interpLandmark lm (some pLm)).x ∧
       (ConfidenceInterpolator.interpLandmark lm (some pLm)).x ≤ max lm.x pLm.x) ∧
    (min lm.y pLm.y ≤ (ConfidenceInterpolator.interpLandmark lm (some pLm)).y ∧
       (ConfidenceInterpolator.interpLandmark lm (some pLm)).y ≤ max lm.y pLm.y) ∧
    (min (lm.z.getD 0) (pLm.z.getD 0)
        ≤ (ConfidenceInterpolator.interpLandmark lm (some pLm)).z.getD 0 ∧
       (ConfidenceInterpolator.interpLandmark lm (some pLm)).z.getD 0
        ≤ max (lm.z.getD 0) (pLm.z.getD 0)) := by
  obtain ⟨hw0, hw1⟩ :=
    ConfidenceInterpolator.weight_mem_unit (lm.visibility.getD 0) (pLm.visibility.getD 0) h0 hp
  rw [ConfidenceInterpolator.interpLandmark_low lm pLm hc hp]
  refine ⟨?_, ?_, ?_⟩
  · exact blend_between lm.x pLm.x _ hw0 hw1
  · exact blend_between lm.y pLm.y _ hw0 hw1
  · simpa using blend_between (lm.z.getD 0) (pLm.z.getD 0) _ hw0 hw1

/-- **C5 (witness).** Evaluates the convexity statement at a concrete correction. -/
theorem interp_coord_convex_witness :
    ((0:ℚ) ≤ (⟨0, 0, some 0, some (1/4)⟩ : Landmark).visibility.getD 0 ∧
      (⟨0, 0, some 0, some (1/4)⟩ : Landmark).visibility.getD 0 < 1/2 ∧
      1/2 ≤ (⟨1, 1, some 1, some (3/4)⟩ : Landmark).visibility.getD 0) ∧
    (min (0:ℚ) 1 ≤ (ConfidenceInterpolator.interpLandmark ⟨0, 0, some 0, some (1/4)⟩
          (some ⟨1, 1, some 1, some (3/4)⟩)).x ∧
      (ConfidenceInterpolator.interpLandmark ⟨0, 0, some 0, some (1/4)⟩
          (some ⟨1, 1, some 1, some (3/4)⟩)).x ≤ max (0:ℚ) 1) :=
  ⟨⟨by norm_num, by norm_num, by norm_num⟩,
   (interp_coord_convex ⟨0, 0, some 0, some (1/4)⟩ ⟨1, 1, some 1, some (3/4)⟩
      (by norm_num) (by norm_num) (by norm_num)).1⟩

/-! ## One-Euro filter and landmark smoother (source part_004) -/

namespace OneEuro

/-- Mutable fields of a `OneEuroFilter` instance (tuning constants plus the
per-channel memory `xPrev`, `dxPrev`, `tPrev`). -/
structure State where
  minCutoff : ℚ
  beta : ℚ
  dCutoff : ℚ
  xPrev : Option ℚ
  dxPrev : ℚ
  tPrev : Option ℚ
deriving Repr, DecidableEq

/-- `new OneEuroFilter(minCutoff, beta, dCutoff)`. -/
def State.new (minCutoff beta dCutoff : ℚ) : State :=
  ⟨minCutoff, beta, dCutoff, none, 0, none⟩

/-- `alpha(te, cutoff) = r / (r + 1)` with `r = 2π·cutoff·te`; `twoPi` abstracts the
real constant `2 * Math.PI`. -/
def alpha (twoPi te cutoff : ℚ) : ℚ :=
  let r := twoPi * cutoff * te
  r / (r + 1)

/-- `filter(x, t)` of the source: returns the filtered value together with the
updated filter state. -/
def filter (twoPi : ℚ) (s : State) (x t : ℚ) : ℚ × State :=
  match s.xPrev, s.tPrev with
  | some xp, some tp =>
    if t - tp ≤ 0 then (xp, s)
    else
      let te := t - tp
      let dx := (x - xp) / te
      let adx := alpha twoPi te s.dCutoff
      let dxS := adx * dx + (1 - adx) * s.dxPrev
      let cutoff := s.minCutoff + s.beta * |dxS|
      let ax := alpha twoPi te cutoff
      let xF := ax * x + (1 - ax) * xp
      (xF, ⟨s.minCutoff, s.beta, s.dCutoff, some xF, dxS, some t⟩)
  | _, _ => (x, ⟨s.minCutoff, s.beta, s.dCutoff, some x, s.dxPrev, some t⟩)

end OneEuro

namespace LandmarkSmoother

/-- Smoother state: the per-joint filter map (`filters` keyed by `i_x`/`i_y`/`i_z` in
the source, modelled as one optional triple per joint index) plus the tuning
constants handed to newly created filters. -/
structure State where
  minCutoff : ℚ
  beta : ℚ
  filters : ℕ → Option (OneEuro.State × OneEuro.State × OneEuro.State)

/-- `new LandmarkSmoother(minCutoff, beta)`: empty filter map. -/
def State.new (minCutoff beta : ℚ) : State :=
  ⟨minCutoff, beta, fun _ => none⟩

/-- The body of `smooth`'s `landmarks.map` callback, threading the filter map through
the landmark list; `i` is the current joint index.  A missing map entry is created as
three fresh filters `new OneEuroFilter(minCutoff, beta)` (default `dCutoff = 1`). -/
def smoothGo (twoPi t : ℚ) : List Landmark → ℕ → State → List Landmark × State
  | [], _, st => ([], st)
  | lm :: rest, i, st =>
    let fresh := OneEuro.State.new st.minCutoff st.beta 1
    let fs := (st.filters i).getD (fresh, fresh, fresh)
    let rx := OneEuro.filter twoPi fs.1 lm.x t
    let ry := OneEuro.filter twoPi fs.2.1 lm.y t
    let rz := OneEuro.filter twoPi fs.2.2 (lm.z.getD 0) t
    let st' : State := ⟨st.minCutoff, st.beta,
      fun j => if j = i then some (rx.2, ry.2, rz.2) else st.filters j⟩
    let res := smoothGo twoPi t rest (i + 1) st'
    (⟨rx.1, ry.1, some rz.1, lm.visibility⟩ :: res.1, res.2)

/-- `smooth(landmarks, timestamp)`: filter every coordinate channel, confidence
passes through unmodified. -/
def smooth (twoPi : ℚ) (st : State) (lms : List Landmark) (t : ℚ) :
    List Landmark × State :=
  smoothGo twoPi t lms 0 st

end LandmarkSmoother

/-- A one-euro filter whose channel has no history yet (fresh or just reset) stores
and returns the raw sample unchanged. -/
lemma oneEuro_first_sample (twoPi : ℚ) (s : OneEuro.State) (x t : ℚ)
    (h : s.tPrev = none ∨ s.xPrev = none) :
    (OneEuro.filter twoPi s x t).1 = x := by
  rw [OneEuro.filter]
  rcases hx : s.xPrev with _ | xp <;> rcases ht : s.tPrev with _ | tp <;> simp_all

/-- Processing a landmark list from index `i` over a filter map that is empty at
every index ≥ `i` returns each landmark with its coordinates unchanged (`z`
re-wrapped through the `?? 0` default). -/
lemma smoothGo_fresh (twoPi t : ℚ) (lms : List Landmark) :
    ∀ (i : ℕ) (st : LandmarkSmoother.State),
      (∀ j, i ≤ j → st.filters j = none) →
      (LandmarkSmoother.smoothGo twoPi t lms i st).1
        = lms.map fun lm => ⟨lm.x, lm.y, some (lm.z.getD 0), lm.visibility⟩ := by
  induction lms with
  | nil => intro i st _; rfl
  | cons lm rest ih =>
    intro i st hst
    have h0 : st.filters i = none := hst i le_rfl
    rw [LandmarkSmoother.smoothGo]
    simp only [h0, Option.getD_none]
    have hfresh : ∀ x, (OneEuro.filter twoPi (OneEuro.State.new st.minCutoff st.beta 1) x t).1 = x :=
      fun x => oneEuro_first_sample twoPi _ x t (Or.inl rfl)
    have htail := ih (i + 1)
      ⟨st.minCutoff, st.beta, fun j => if j = i then
          some ((OneEuro.filter twoPi (OneEuro.State.new st.minCutoff st.beta 1) lm.x t).2,
                (OneEuro.filter twoPi (OneEuro.State.new st.minCutoff st.beta 1) lm.y t).2,
                (OneEuro.filter twoPi (OneEuro.State.new st.minCutoff st.beta 1) (lm.z.getD 0) t).2)
        else st.filters j⟩
      (by
        intro j hj
        have hne : j ≠ i := by omega
        simp only [hne, if_false]
        exact hst j (by omega))
    simp only [List.map_cons]
    rw [hfresh, hfresh, hfresh]
    exact congrArg _ htail

/-- **C7.** For a freshly constructed (or just reset) smoother, `smooth(frame, t0)`
returns the input frame unchanged: every coordinate channel sees its first sample and
stores and returns it without filtering.  (The depth field is required to be present,
as the detector always supplies it; the source re-reads it through `z ?? 0`.) -/
theorem smoother_first_sample (twoPi minCutoff beta t : ℚ) (lms : List Landmark)
    (hz : ∀ lm ∈ lms, lm.z.isSome) :
    (LandmarkSmoother.smooth twoPi (LandmarkSmoother.State.new minCutoff beta) lms t).1
      = lms := by
  rw [LandmarkSmoother.smooth,
    smoothGo_fresh twoPi t lms 0 (LandmarkSmoother.State.new minCutoff beta)
      (fun _ _ => rfl)]
  have : ∀ lm ∈ lms, (⟨lm.x, lm.y, some (lm.z.getD 0), lm.visibility⟩ : Landmark) = lm := by
    intro lm hlm
    obtain ⟨zv, hzv⟩ := Option.isSome_iff_exists.mp (hz lm hlm)
    cases lm
    simp_all
  calc (lms.map fun lm => (⟨lm.x, lm.y, some (lm.z.getD 0), lm.visibility⟩ : Landmark))
      = lms.map id := List.map_congr_left this
    _ = lms := List.map_id lms

/-- **C7 (witness).** A fresh smoother is the identity on a concrete two-landmark
frame. -/
theorem smoother_first_sample_witness :
    (∀ lm ∈ [(⟨1/4, 1/3, some (1/5), some 1⟩ : Landmark), ⟨2, 3, some 4, none⟩], lm.z.isSome) ∧
    (LandmarkSmoother.smooth 7 (LandmarkSmoother.State.new (17/10) (1/100))
        [⟨1/4, 1/3, some (1/5), some 1⟩, ⟨2, 3, some 4, none⟩] 0).1
      = [⟨1/4, 1/3, some (1/5), some 1⟩, ⟨2, 3, some 4, none⟩] :=
  ⟨by decide,
   smoother_first_sample 7 (17/10) (1/100) 0
     [⟨1/4, 1/3, some (1/5), some 1⟩, ⟨2, 3, some 4, none⟩] (by decide)⟩

/-- **C8.** A one-euro channel that has already seen a sample, called again with a
timestamp not exceeding its stored one (`dt ≤ 0`), returns the previously filtered
value and leaves the filter state untouched. -/
theorem oneEuro_nonmonotonic_guard (twoPi : ℚ) (s : OneEuro.State) (x t xp tp : ℚ)
    (hx : s.xPrev = some xp) (ht : s.tPrev = some tp) (hle : t ≤ tp) :
    OneEuro.filter twoPi s x t = (xp, s) := by
  obtain ⟨mc, b, dc, xPrev, dxPrev, tPrev⟩ := s
  dsimp only at hx ht
  subst hx
  subst ht
  simp only [OneEuro.filter]
  rw [if_pos (sub_nonpos.mpr hle)]

/-- **C8 (witness).** Concrete non-monotonic second call. -/
theorem oneEuro_nonmonotonic_guard_witness :
    ((⟨17/10, 1/100, 1, some 5, 0, some 2⟩ : OneEuro.State).xPrev = some 5 ∧
      (⟨17/10, 1/100, 1, some 5, 0, some 2⟩ : OneEuro.State).tPrev = some 2 ∧
      (2:ℚ) ≤ 2) ∧
    OneEuro.filter 7 ⟨17/10, 1/100, 1, some 5, 0, some 2⟩ 3 2
      = (5, ⟨17/10, 1/100, 1, some 5, 0, some 2⟩) :=
  ⟨⟨rfl, rfl, le_refl 2⟩,
   oneEuro_nonmonotonic_guard 7 ⟨17/10, 1/100, 1, some 5, 0, some 2⟩ 3 2 5 2 rfl rfl le_rfl⟩

/-- The blend coefficient `alpha(te, cutoff) = r / (r + 1)` lies in `[0, 1)` whenever
`r = 2π·cutoff·te` is nonnegative. -/
lemma alpha_mem_unit (twoPi te cutoff : ℚ) (h : 0 ≤ twoPi * cutoff * te) :
    0 ≤ OneEuro.alpha twoPi te cutoff ∧ OneEuro.alpha twoPi te cutoff < 1 := by
  simp only [OneEuro.alpha]
  constructor
  · exact div_nonneg h (by linarith)
  · rw [div_lt_one (by linarith)]
    linarith

/-- The update branch of `filter` (positive time delta) spelled out. -/
lemma oneEuro_filter_pos_dt (twoPi mc b dc dxPrev xp tp x t : ℚ) (hlt : tp < t) :
    (OneEuro.filter twoPi ⟨mc, b, dc, some xp, dxPrev, some tp⟩ x t).1
      = OneEuro.alpha twoPi (t - tp)
          (mc + b * |OneEuro.alpha twoPi (t - tp) dc * ((x - xp) / (t - tp))
                      + (1 - OneEuro.alpha twoPi (t - tp) dc) * dxPrev|) * x
        + (1 - OneEuro.alpha twoPi (t - tp)
          (mc + b * |OneEuro.alpha twoPi (t - tp) dc * ((x - xp) / (t - tp))
                      + (1 - OneEuro.alpha twoPi (t - tp) dc) * dxPrev|)) * xp := by
  simp only [OneEuro.filter]
  rw [if_neg (not_le.mpr (by linarith : (0:ℚ) < t - tp))]

/-- **C10.** After the first sample, a `filter` call with a strictly increasing
timestamp and nonnegative tuning (`minCutoff ≥ 0`, `beta ≥ 0`, and the constant `2π`
abstracted as any nonnegative `twoPi`) produces an output inside the closed interval
spanned by the previous filtered value and the new raw sample: the blend coefficient
`r / (r + 1)`, `r = 2π·cutoff·dt ≥ 0`, lies in `[0, 1)`, so the exponential blend never
overshoots. -/
theorem oneEuro_output_between (twoPi : ℚ) (s : OneEuro.State) (x t xp tp : ℚ)
    (hpi : 0 ≤ twoPi) (hmc : 0 ≤ s.minCutoff) (hb : 0 ≤ s.beta)
    (hx : s.xPrev = some xp) (ht : s.tPrev = some tp) (hlt : tp < t) :
    min xp x ≤ (OneEuro.filter twoPi s x t).1 ∧
      (OneEuro.filter twoPi s x t).1 ≤ max xp x := by
  obtain ⟨mc, b, dc, xPrev, dxPrev, tPrev⟩ := s
  dsimp only at hx ht hmc hb
  subst hx
  subst ht
  rw [oneEuro_filter_pos_dt twoPi mc b dc dxPrev xp tp x t hlt]
  set D := OneEuro.alpha twoPi (t - tp) dc * ((x - xp) / (t - tp))
      + (1 - OneEuro.alpha twoPi (t - tp) dc) * dxPrev with hD
  have hcut : 0 ≤ mc + b * |D| := add_nonneg hmc (mul_nonneg hb (abs_nonneg D))
  have hr : 0 ≤ twoPi * (mc + b * |D|) * (t - tp) :=
    mul_nonneg (mul_nonneg hpi hcut) (by linarith)
  obtain ⟨hA0, hA1⟩ := alpha_mem_unit twoPi (t - tp) (mc + b * |D|) hr
  have h := blend_between x xp (OneEuro.alpha twoPi (t - tp) (mc + b * |D|)) hA0 hA1.le
  constructor
  · rw [min_comm]
    linarith [h.1]
  · rw [max_comm]
    linarith [h.2]

/-- **C10 (witness).** The bound evaluated at a concrete post-first-sample call. -/
theorem oneEuro_output_between_witness :
    ((0:ℚ) ≤ 7 ∧ (0:ℚ) ≤ (⟨1, 0, 1, some 0, 0, some 0⟩ : OneEuro.State).minCutoff ∧
      (0:ℚ) ≤ (⟨1, 0, 1, some 0, 0, some 0⟩ : OneEuro.State).beta ∧
      (⟨1, 0, 1, some 0, 0, some 0⟩ : OneEuro.State).xPrev = some 0 ∧
      (⟨1, 0, 1, some 0, 0, some 0⟩ : OneEuro.State).tPrev = some 0 ∧ (0:ℚ) < 1) ∧
    (min (0:ℚ) 1 ≤ (OneEuro.filter 7 ⟨1, 0, 1, some 0, 0, some 0⟩ 1 1).1 ∧
      (OneEuro.filter 7 ⟨1, 0, 1, some 0, 0, some 0⟩ 1 1).1 ≤ max (0:ℚ) 1) :=
  ⟨⟨by norm_num, by norm_num, by norm_num, rfl, rfl, by norm_num⟩,
   oneEuro_output_between 7 ⟨1, 0, 1, some 0, 0, some 0⟩ 1 1 0 0
     (by norm_num) (by norm_num) (by norm_num) rfl rfl (by norm_num)⟩

/-! ## Swing phase segmenter (`SwingPhaseDetector`, source swingPhaseDetector.ts) -/

/-- The closed phase enumeration of the source. -/
inductive SwingPhase where
  | address
  | takeaway
  | top
  | downswing
  | impact
  | follow
  | finish
  | unknown
deriving Repr, DecidableEq

/-- Position of a phase in the fixed phase order; `unknown` sorts last (it is never
produced for recordings of length ≥ 5). -/
def phaseIdx : SwingPhase → ℕ
  | .address => 0
  | .takeaway => 1
  | .top => 2
  | .downswing => 3
  | .impact => 4
  | .follow => 5
  | .finish => 6
  | .unknown => 7

namespace SwingPhaseDetector

/-- `POSE.LEFT_WRIST` of the shared joint-index schema. -/
def LEFT_WRIST : ℕ := 15

/-- `POSE.RIGHT_WRIST`. -/
def RIGHT_WRIST : ℕ := 16

/-- `POSE.LEFT_SHOULDER`. -/
def LEFT_SHOULDER : ℕ := 11

/-- `POSE.RIGHT_SHOULDER`. -/
def RIGHT_SHOULDER : ℕ := 12

/-- Per-frame lead-hand wrist Y: the wrist (left or right) whose confidence is
higher, defaulting each missing read as in the source (`?.visibility ?? 0`,
`?.y ?? 0.5`). -/
def wristYOf (lm : Frame) : ℚ :=
  let lw := lm.get? LEFT_WRIST
  let rw := lm.get? RIGHT_WRIST
  let lv := (lw.bind Landmark.visibility).getD 0
  let rv := (rw.bind Landmark.visibility).getD 0
  if rv ≤ lv then (lw.map Landmark.y).getD (1/2) else (rw.map Landmark.y).getD (1/2)

/-- Per-frame lead-hand wrist X, same selection rule. -/
def wristXOf (lm : Frame) : ℚ :=
  let lw := lm.get? LEFT_WRIST
  let rw := lm.get? RIGHT_WRIST
  let lv := (lw.bind Landmark.visibility).getD 0
  let rv := (rw.bind Landmark.visibility).getD 0
  if rv ≤ lv then (lw.map Landmark.x).getD (1/2) else (rw.map Landmark.x).getD (1/2)

/-- Per-frame shoulder-line angle; 0 when either shoulder is missing or its
confidence is below 0.3.  `a2` abstracts `(dy, dx) ↦ Math.atan2(dy, dx) * 180 / π`. -/
def shoulderAngleOf (a2 : ℚ → ℚ → ℚ) (lm : Frame) : ℚ :=
  match lm.get? LEFT_SHOULDER, lm.get? RIGHT_SHOULDER with
  | some ls, some rs =>
    if ls.visibility.getD 0 < 3/10 ∨ rs.visibility.getD 0 < 3/10 then 0
    else a2 (rs.y - ls.y) (rs.x - ls.x)
  | _, _ => 0

/-- Centered moving average with the given window (source `movingAvg`): entry `i`
averages `arr[j]` over `j ∈ [i - ⌊window/2⌋, i + ⌊window/2⌋]` clipped to the array. -/
def movingAvg (arr : List ℚ) (window : ℕ) : List ℚ :=
  let half := window / 2
  (List.range arr.length).map fun i =>
    let js := (List.range arr.length).filter fun j => i - half ≤ j ∧ j ≤ i + half
    (js.map fun j => arr.getD j 0).sum / js.length

/-- Smoothed wrist-Y trace (3-frame moving average). -/
def smoothYOf (frames : List Frame) : List ℚ :=
  movingAvg (frames.map wristYOf) 3

/-- Smoothed wrist-X trace (3-frame moving average). -/
def smoothXOf (frames : List Frame) : List ℚ :=
  movingAvg (frames.map wristXOf) 3

/-- The argmin accumulator step of the top-of-backswing loop; `none` models the
`Infinity` initializer, against which any value compares as smaller. -/
def argminUpd (vals : List ℚ) (acc : ℕ × Option ℚ) (i : ℕ) : ℕ × Option ℚ :=
  match acc with
  | (_, none) => (i, some (vals.getD i 0))
  | (t, some m) => if vals.getD i 0 < m then (i, some (vals.getD i 0)) else (t, some m)

/-- The search range `[⌊n*0.1⌋, ⌊n*0.7⌋)` of the top-of-backswing loop. -/
def topWindow (n : ℕ) : List ℕ :=
  List.range' (n / 10) ((7 * n) / 10 - n / 10)

/-- Top-of-backswing frame: index of minimum smoothed wrist Y over `topWindow`
(initial accumulator `topFrame = 0`, `minY = Infinity`). -/
def topFrameOf (frames : List Frame) : ℕ :=
  ((topWindow frames.length).foldl (argminUpd (smoothYOf frames)) (0, none)).1

/-- Per-frame horizontal wrist speed `|ΔX| × fps` (0 at frame 0). -/
def xSpeedOf (frames : List Frame) (fps : ℚ) : List ℚ :=
  (List.range frames.length).map fun i =>
    if i = 0 then 0
    else |(smoothXOf frames).getD i 0 - (smoothXOf frames).getD (i - 1) 0| * fps

/-- Smoothed speed trace (3-frame moving average). -/
def smoothSpeedOf (frames : List Frame) (fps : ℚ) : List ℚ :=
  movingAvg (xSpeedOf frames fps) 3

/-- The argmax accumulator step of the impact loop (strict improvement only). -/
def argmaxUpd (vals : List ℚ) (acc : ℕ × ℚ) (i : ℕ) : ℕ × ℚ :=
  if acc.2 < vals.getD i 0 then (i, vals.getD i 0) else acc

/-- The impact search range `[topFrame + 2, min(n - 1, topFrame + ⌊n*0.5⌋))`. -/
def impactWindow (frames : List Frame) : List ℕ :=
  List.range' (topFrameOf frames + 2)
    (min (frames.length - 1) (topFrameOf frames + frames.length / 2)
      - (topFrameOf frames + 2))

/-- The impact loop result: frame of maximum smoothed speed over `impactWindow`
together with that maximum (initial accumulator `(topFrame + 1, 0)`). -/
def impactPairOf (frames : List Frame) (fps : ℚ) : ℕ × ℚ :=
  (impactWindow frames).foldl (argmaxUpd (smoothSpeedOf frames fps))
    (topFrameOf frames + 1, 0)

/-- The impact frame. -/
def impactFrameOf (frames : List Frame) (fps : ℚ) : ℕ :=
  (impactPairOf frames fps).1

/-- The peak smoothed speed found by the impact loop. -/
def maxSpeedOf (frames : List Frame) (fps : ℚ) : ℚ :=
  (impactPairOf frames fps).2

/-- Finish frame: first frame from `impactFrame + 3` on whose smoothed speed drops
below 15% of the peak impact speed, defaulting to the last frame. -/
def finishFrameOf (frames : List Frame) (fps : ℚ) : ℕ :=
  let n := frames.length
  let im := impactFrameOf frames fps
  match (List.range' (im + 3) (n - (im + 3))).find?
      (fun i => decide ((smoothSpeedOf frames fps).getD i 0 < maxSpeedOf frames fps * (3/20))) with
  | some i => i
  | none => n - 1

/-- Takeaway frame: first frame in `[1, topFrame)` whose shoulder angle deviates from
the frame-0 baseline by more than 3°, defaulting to `max(1, ⌊topFrame*0.1⌋)`. -/
def takeawayFrameOf (a2 : ℚ → ℚ → ℚ) (frames : List Frame) : ℕ :=
  let sA := frames.map (shoulderAngleOf a2)
  let base := sA.getD 0 0
  let tp := topFrameOf frames
  match (List.range' 1 (tp - 1)).find? (fun i => decide (3 < |sA.getD i 0 - base|)) with
  | some i => i
  | none => max 1 (tp / 10)

/-- The per-frame label assignment of step 6 of `analyze`. -/
def phaseAt (tw tp im fn i : ℕ) : SwingPhase :=
  if i < tw then .address
  else if i < tp then .takeaway
  else if i = tp then .top
  else if i < im then .downswing
  else if im ≤ i ∧ i ≤ im + 1 then .impact
  else if i < fn then .follow
  else .finish

/-- `analyze(frames, fps)`: all-`unknown` below 5 frames, otherwise the event-based
labelling. -/
def analyze (a2 : ℚ → ℚ → ℚ) (frames : List Frame) (fps : ℚ) : List SwingPhase :=
  if frames.length < 5 then List.replicate frames.length SwingPhase.unknown
  else
    (List.range frames.length).map
      (phaseAt (takeawayFrameOf a2 frames) (topFrameOf frames)
        (impactFrameOf frames fps) (finishFrameOf frames fps))

end SwingPhaseDetector

/-- `getD` on a mapped range evaluates the mapped function. -/
lemma getD_map_range {α : Type} (f : ℕ → α) (n i : ℕ) (h : i < n) (d : α) :
    ((List.range n).map f).getD i d = f i := by
  rw [List.getD_eq_getElem?_getD, List.getElem?_map, List.getElem?_range h]
  rfl

/-- **C6.** `analyze` on fewer than 5 frames returns an all-`unknown` array of the
input's length. -/
theorem analyze_short_input (a2 : ℚ → ℚ → ℚ) (frames : List Frame) (fps : ℚ)
    (h : frames.length < 5) :
    SwingPhaseDetector.analyze a2 frames fps
      = List.replicate frames.length SwingPhase.unknown := by
  unfold SwingPhaseDetector.analyze
  rw [if_pos h]

/-- **C6 (witness).** Two frames yield `[unknown, unknown]`. -/
theorem analyze_short_input_witness :
    ([([] : Frame), []].length < 5) ∧
    SwingPhaseDetector.analyze (fun _ _ => 0) [([] : Frame), []] 30
      = List.replicate 2 SwingPhase.unknown :=
  ⟨by norm_num, analyze_short_input (fun _ _ => 0) [([] : Frame), []] 30 (by norm_num)⟩

/-- One step of monotonicity of the label assignment, for arbitrary event frames. -/
lemma phaseAt_step (tw tp im fn i : ℕ) :
    phaseIdx (SwingPhaseDetector.phaseAt tw tp im fn i)
      ≤ phaseIdx (SwingPhaseDetector.phaseAt tw tp im fn (i + 1)) := by
  unfold SwingPhaseDetector.phaseAt
  split_ifs <;> simp only [phaseIdx] <;> omega

/-- The label assignment is non-decreasing in the frame index, for arbitrary event
frames. -/
lemma phaseAt_mono (tw tp im fn : ℕ) {i j : ℕ} (h : i ≤ j) :
    phaseIdx (SwingPhaseDetector.phaseAt tw tp im fn i)
      ≤ phaseIdx (SwingPhaseDetector.phaseAt tw tp im fn j) := by
  induction h with
  | refl => exact le_rfl
  | step h ih => exact le_trans ih (phaseAt_step tw tp im fn _)

/-- **C2.** For any recording of length at least 5 and any fps (and any realisation
of the shoulder-angle function), the labels returned by `analyze` are non-decreasing
over the frame index in the fixed phase order address < takeaway < top < downswing <
impact < follow < finish. -/
theorem analyze_phase_monotone (a2 : ℚ → ℚ → ℚ) (frames : List Frame) (fps : ℚ)
    (h5 : 5 ≤ frames.length) (i j : ℕ) (hij : i ≤ j) (hj : j < frames.length) :
    phaseIdx ((SwingPhaseDetector.analyze a2 frames fps).getD i SwingPhase.unknown)
      ≤ phaseIdx ((SwingPhaseDetector.analyze a2 frames fps).getD j SwingPhase.unknown) := by
  unfold SwingPhaseDetector.analyze
  rw [if_neg (by omega)]
  rw [getD_map_range _ _ i (by omega), getD_map_range _ _ j hj]
  exact phaseAt_mono _ _ _ _ hij

/-- **C2 (witness).** The ordering evaluated on a concrete 5-frame recording. -/
theorem analyze_phase_monotone_witness :
    (5 ≤ (List.replicate 5 ([] : Frame)).length ∧ (1:ℕ) ≤ 3 ∧
      3 < (List.replicate 5 ([] : Frame)).length) ∧
    phaseIdx ((SwingPhaseDetector.analyze (fun _ _ => 0)
        (List.replicate 5 ([] : Frame)) 30).getD 1 SwingPhase.unknown)
      ≤ phaseIdx ((SwingPhaseDetector.analyze (fun _ _ => 0)
        (List.replicate 5 ([] : Frame)) 30).getD 3 SwingPhase.unknown) :=
  ⟨⟨by norm_num, by norm_num, by norm_num⟩,
   analyze_phase_monotone (fun _ _ => 0) (List.replicate 5 ([] : Frame)) 30
     (by norm_num) 1 3 (by norm_num) (by norm_num)⟩

/-- The label assignment never produces `unknown`. -/
lemma phaseAt_ne_unknown (tw tp im fn i : ℕ) :
    SwingPhaseDetector.phaseAt tw tp im fn i ≠ SwingPhase.unknown := by
  unfold SwingPhaseDetector.phaseAt
  split_ifs <;> simp

/-- **C9.** For a recording of length at least 5, no entry of `analyze`'s output is
`unknown`: every frame receives one of the seven concrete phases. -/
theorem analyze_no_unknown (a2 : ℚ → ℚ → ℚ) (frames : List Frame) (fps : ℚ)
    (h5 : 5 ≤ frames.length) (i : ℕ) (hi : i < frames.length) :
    (SwingPhaseDetector.analyze a2 frames fps).getD i SwingPhase.unknown
      ≠ SwingPhase.unknown := by
  unfold SwingPhaseDetector.analyze
  rw [if_neg (by omega), getD_map_range _ _ i hi]
  exact phaseAt_ne_unknown _ _ _ _ i

/-- **C9 (witness).** Frame 0 of a concrete 5-frame recording is labelled. -/
theorem analyze_no_unknown_witness :
    (5 ≤ (List.replicate 5 ([] : Frame)).length ∧
      (0:ℕ) < (List.replicate 5 ([] : Frame)).length) ∧
    (SwingPhaseDetector.analyze (fun _ _ => 0)
        (List.replicate 5 ([] : Frame)) 30).getD 0 SwingPhase.unknown
      ≠ SwingPhase.unknown :=
  ⟨⟨by norm_num, by norm_num⟩,
   analyze_no_unknown (fun _ _ => 0) (List.replicate 5 ([] : Frame)) 30
     (by norm_num) 0 (by norm_num)⟩

/-- Invariant of the strict-argmin fold over a sorted index list, started after the
first updating step: the result improves on the start, bounds every visited value
from below, and is the earliest index attaining the final minimum. -/
lemma argmin_foldl_inv (vals : List ℚ) :
    ∀ (l : List ℕ), l.Pairwise (· < ·) → ∀ (t : ℕ) (m : ℚ), (∀ i ∈ l, t < i) →
      ∃ t' m', l.foldl (SwingPhaseDetector.argminUpd vals) (t, some m) = (t', some m') ∧
        m' ≤ m ∧ (∀ i ∈ l, m' ≤ vals.getD i 0) ∧
        ((t' = t ∧ m' = m) ∨ (t' ∈ l ∧ m' = vals.getD t' 0 ∧ m' < m)) ∧
        (∀ i ∈ l, i < t' → m' < vals.getD i 0) := by
  intro l
  induction l with
  | nil =>
    intro _ t m _
    exact ⟨t, m, rfl, le_rfl, by simp, Or.inl ⟨rfl, rfl⟩, by simp⟩
  | cons a rest ih =>
    intro hpw t m ht
    obtain ⟨ha, hrest⟩ := List.pairwise_cons.mp hpw
    rw [List.foldl_cons]
    by_cases hc : vals.getD a 0 < m
    · have hstep : SwingPhaseDetector.argminUpd vals (t, some m) a
          = (a, some (vals.getD a 0)) := by
        show (if vals.getD a 0 < m then (a, some (vals.getD a 0)) else (t, some m))
          = (a, some (vals.getD a 0))
        rw [if_pos hc]
      rw [hstep]
      obtain ⟨t', m', heq, hle, hbd, hbr, hstrict⟩ := ih hrest a (vals.getD a 0) ha
      refine ⟨t', m', heq, le_of_lt (lt_of_le_of_lt hle hc), ?_, ?_, ?_⟩
      · intro i hi
        rcases List.mem_cons.mp hi with rfl | hi'
        · exact hle
        · exact hbd i hi'
      · rcases hbr with ⟨h1, h2⟩ | ⟨h1, h2, h3⟩
        · refine Or.inr ⟨?_, ?_, ?_⟩
          · rw [h1]; exact List.mem_cons_self a rest
          · rw [h1]; exact h2
          · rw [h2]; exact hc
        · exact Or.inr ⟨List.mem_cons_of_mem a h1, h2, lt_trans h3 hc⟩
      · intro i hi hit
        rcases List.mem_cons.mp hi with rfl | hi'
        · rcases hbr with ⟨h1, _⟩ | ⟨_, _, h3⟩
          · exfalso; omega
          · exact h3
        · exact hstrict i hi' hit
    · have hstep : SwingPhaseDetector.argminUpd vals (t, some m) a = (t, some m) := by
        show (if vals.getD a 0 < m then (a, some (vals.getD a 0)) else (t, some m))
          = (t, some m)
        rw [if_neg hc]
      rw [hstep]
      obtain ⟨t', m', heq, hle, hbd, hbr, hstrict⟩ :=
        ih hrest t m (fun i hi => ht i (List.mem_cons_of_mem a hi))
      refine ⟨t', m', heq, hle, ?_, ?_, ?_⟩
      · intro i hi
        rcases List.mem_cons.mp hi with rfl | hi'
        · exact le_trans hle (not_lt.mp hc)
        · exact hbd i hi'
      · rcases hbr with h | ⟨h1, h2, h3⟩
        · exact Or.inl h
        · exact Or.inr ⟨List.mem_cons_of_mem a h1, h2, h3⟩
      · intro i hi hit
        rcases List.mem_cons.mp hi with rfl | hi'
        · rcases hbr with ⟨h1, _⟩ | ⟨_, _, h3⟩
          · exfalso
            have := ht i (List.mem_cons_self i rest)
            omega
          · exact lt_of_lt_of_le h3 (not_lt.mp hc)
        · exact hstrict i hi' hit

/-- **C4.** For a recording of length `n ≥ 5`, the top-of-backswing frame lies in
`[⌊n*0.1⌋, ⌊n*0.7⌋)`, attains the minimum of the smoothed wrist-Y trace over that
window, and is the earliest index doing so (every earlier window index has a strictly
larger smoothed Y). -/
theorem topFrame_spec (frames : List Frame) (h5 : 5 ≤ frames.length) :
    (frames.length / 10 ≤ SwingPhaseDetector.topFrameOf frames ∧
      SwingPhaseDetector.topFrameOf frames < (7 * frames.length) / 10) ∧
    (∀ j, frames.length / 10 ≤ j → j < (7 * frames.length) / 10 →
      (SwingPhaseDetector.smoothYOf frames).getD (SwingPhaseDetector.topFrameOf frames) 0
        ≤ (SwingPhaseDetector.smoothYOf frames).getD j 0) ∧
    (∀ j, frames.length / 10 ≤ j → j < (7 * frames.length) / 10 →
      j < SwingPhaseDetector.topFrameOf frames →
      (SwingPhaseDetector.smoothYOf frames).getD (SwingPhaseDetector.topFrameOf frames) 0
        < (SwingPhaseDetector.smoothYOf frames).getD j 0) := by
  have hlen : (7 * frames.length) / 10 - frames.length / 10
      = ((7 * frames.length) / 10 - frames.length / 10 - 1) + 1 := by omega
  obtain ⟨t', m', heq, hle, hbd, hbr, hstrict⟩ :=
    argmin_foldl_inv (SwingPhaseDetector.smoothYOf frames)
      (List.range' (frames.length / 10 + 1)
        ((7 * frames.length) / 10 - frames.length / 10 - 1))
      (List.pairwise_lt_range' _ _ 1 (by omega))
      (frames.length / 10)
      ((SwingPhaseDetector.smoothYOf frames).getD (frames.length / 10) 0)
      (fun i hi => by
        have := List.mem_range'_1.mp hi
        omega)
  have htf : SwingPhaseDetector.topFrameOf frames = t' := by
    unfold SwingPhaseDetector.topFrameOf SwingPhaseDetector.topWindow
    rw [hlen, List.range'_succ _ _ 1, List.foldl_cons]
    have hstep : SwingPhaseDetector.argminUpd (SwingPhaseDetector.smoothYOf frames)
        (0, none) (frames.length / 10)
        = (frames.length / 10,
           some ((SwingPhaseDetector.smoothYOf frames).getD (frames.length / 10) 0)) := rfl
    rw [hstep, heq]
  have hmem : frames.length / 10 ≤ t' ∧ t' < (7 * frames.length) / 10 := by
    rcases hbr with ⟨h1, _⟩ | ⟨h1, _, _⟩
    · omega
    · have := List.mem_range'_1.mp h1
      omega
  have hval : (SwingPhaseDetector.smoothYOf frames).getD t' 0 = m' := by
    rcases hbr with ⟨h1, h2⟩ | ⟨_, h2, _⟩
    · rw [h1, h2]
    · rw [h2]
  refine ⟨by rw [htf]; exact hmem, ?_, ?_⟩
  · intro j hj1 hj2
    rw [htf, hval]
    rcases eq_or_lt_of_le hj1 with h | h
    · rw [← h]
      exact hle
    · exact hbd j (List.mem_range'_1.mpr ⟨by omega, by omega⟩)
  · intro j hj1 hj2 hj3
    rw [htf] at hj3
    rw [htf, hval]
    rcases eq_or_lt_of_le hj1 with h | h
    · rcases hbr with ⟨h1, _⟩ | ⟨_, _, h3⟩
      · omega
      · rw [← h]
        exact h3
    · exact hstrict j (List.mem_range'_1.mpr ⟨by omega, by omega⟩) hj3

/-- **C4 (witness).** The top-frame characterisation evaluated on a concrete 5-frame
recording. -/
theorem topFrame_spec_witness :
    (5 ≤ (List.replicate 5 ([] : Frame)).length) ∧
    ((List.replicate 5 ([] : Frame)).length / 10
        ≤ SwingPhaseDetector.topFrameOf (List.replicate 5 ([] : Frame)) ∧
      SwingPhaseDetector.topFrameOf (List.replicate 5 ([] : Frame))
        < (7 * (List.replicate 5 ([] : Frame)).length) / 10) :=
  ⟨by norm_num, (topFrame_spec (List.replicate 5 ([] : Frame)) (by norm_num)).1⟩

/-- Invariant of the strict-argmax fold over a sorted index list: either the
accumulator never improved (result is the initial pair) or the result is the
earliest visited index attaining the final maximum, which strictly exceeds the
initial value; every visited value is bounded by the final maximum. -/
lemma argmax_foldl_inv (vals : List ℚ) :
    ∀ (l : List ℕ), l.Pairwise (· < ·) → ∀ (t : ℕ) (m : ℚ), (∀ i ∈ l, t < i) →
      ∃ t' m', l.foldl (SwingPhaseDetector.argmaxUpd vals) (t, m) = (t', m') ∧
        m ≤ m' ∧ (∀ i ∈ l, vals.getD i 0 ≤ m') ∧
        ((t' = t ∧ m' = m) ∨ (t' ∈ l ∧ m' = vals.getD t' 0 ∧ m < m')) ∧
        (∀ i ∈ l, i < t' → vals.getD i 0 < m') := by
  intro l
  induction l with
  | nil =>
    intro _ t m _
    exact ⟨t, m, rfl, le_rfl, by simp, Or.inl ⟨rfl, rfl⟩, by simp⟩
  | cons a rest ih =>
    intro hpw t m ht
    obtain ⟨ha, hrest⟩ := List.pairwise_cons.mp hpw
    rw [List.foldl_cons]
    by_cases hc : m < vals.getD a 0
    · have hstep : SwingPhaseDetector.argmaxUpd vals (t, m) a = (a, vals.getD a 0) := by
        unfold SwingPhaseDetector.argmaxUpd
        rw [if_pos hc]
      rw [hstep]
      obtain ⟨t', m', heq, hle, hbd, hbr, hstrict⟩ := ih hrest a (vals.getD a 0) ha
      refine ⟨t', m', heq, le_of_lt (lt_of_lt_of_le hc hle), ?_, ?_, ?_⟩
      · intro i hi
        rcases List.mem_cons.mp hi with rfl | hi'
        · exact hle
        · exact hbd i hi'
      · rcases hbr with ⟨h1, h2⟩ | ⟨h1, h2, h3⟩
        · refine Or.inr ⟨?_, ?_, ?_⟩
          · rw [h1]; exact List.mem_cons_self a rest
          · rw [h1]; exact h2
          · rw [h2]; exact hc
        · exact Or.inr ⟨List.mem_cons_of_mem a h1, h2, lt_trans hc h3⟩
      · intro i hi hit
        rcases List.mem_cons.mp hi with rfl | hi'
        · rcases hbr with ⟨h1, _⟩ | ⟨_, _, h3⟩
          · exfalso; omega
          · exact h3
        · exact hstrict i hi' hit
    · have hstep : SwingPhaseDetector.argmaxUpd vals (t, m) a = (t, m) := by
        unfold SwingPhaseDetector.argmaxUpd
        rw [if_neg hc]
      rw [hstep]
      obtain ⟨t', m', heq, hle, hbd, hbr, hstrict⟩ :=
        ih hrest t m (fun i hi => ht i (List.mem_cons_of_mem a hi))
      refine ⟨t', m', heq, hle, ?_, ?_, ?_⟩
      · intro i hi
        rcases List.mem_cons.mp hi with rfl | hi'
        · exact le_trans (not_lt.mp hc) hle
        · exact hbd i hi'
      · rcases hbr with h | ⟨h1, h2, h3⟩
        · exact Or.inl h
        · exact Or.inr ⟨List.mem_cons_of_mem a h1, h2, h3⟩
      · intro i hi hit
        rcases List.mem_cons.mp hi with rfl | hi'
        · rcases hbr with ⟨h1, _⟩ | ⟨_, _, h3⟩
          · exfalso
            have := ht i (List.mem_cons_self i rest)
            omega
          · exact lt_of_le_of_lt (not_lt.mp hc) h3
        · exact hstrict i hi' hit

/-- `getD` on a replicated list inside the bound returns the repeated element. -/
lemma getD_replicate {α : Type} (n i : ℕ) (c d : α) (h : i < n) :
    (List.replicate n c).getD i d = c := by
  rw [List.getD_eq_getElem?_getD, List.getElem?_replicate, if_pos h]
  rfl

/-- Averaging a constant function over a nonempty index list gives the constant. -/
lemma sum_div_length_const (l : List ℕ) (c : ℚ) (g : ℕ → ℚ)
    (hg : ∀ j ∈ l, g j = c) (hl : l ≠ []) :
    (l.map g).sum / l.length = c := by
  rw [List.map_congr_left hg]
  have hlen : (l.length : ℚ) ≠ 0 := by
    simpa [List.length_eq_zero] using hl
  simp [List.map_const']
  rw [mul_comm]
  exact mul_div_cancel_right₀ c hlen

/-- The centered moving average of a constant trace is that trace. -/
lemma movingAvg_replicate (n w : ℕ) (c : ℚ) :
    SwingPhaseDetector.movingAvg (List.replicate n c) w = List.replicate n c := by
  unfold SwingPhaseDetector.movingAvg
  rw [List.length_replicate]
  refine List.eq_replicate_iff.mpr ⟨by simp, fun b hb => ?_⟩
  simp only [List.mem_map, List.mem_range] at hb
  obtain ⟨i, hi, hfe⟩ := hb
  rw [← hfe]
  apply sum_div_length_const
  · intro j hj
    exact getD_replicate n j c 0 (List.mem_range.mp (List.mem_filter.mp hj).1)
  · apply List.ne_nil_of_mem (a := i)
    rw [List.mem_filter]
    refine ⟨List.mem_range.mpr hi, ?_⟩
    simp only [decide_eq_true_eq]
    omega

/-- A frame with no landmarks yields the `0.5` fallback wrist Y. -/
lemma wristYOf_nil : SwingPhaseDetector.wristYOf [] = 1/2 := by
  simp [SwingPhaseDetector.wristYOf]

/-- A frame with no landmarks yields the `0.5` fallback wrist X. -/
lemma wristXOf_nil : SwingPhaseDetector.wristXOf [] = 1/2 := by
  simp [SwingPhaseDetector.wristXOf]

/-- Smoothed wrist-Y trace of ten empty frames: constant `0.5`. -/
lemma smoothYOf_empty10 :
    SwingPhaseDetector.smoothYOf (List.replicate 10 ([] : Frame))
      = List.replicate 10 (1/2) := by
  unfold SwingPhaseDetector.smoothYOf
  rw [List.map_replicate, wristYOf_nil]
  exact movingAvg_replicate 10 3 (1/2)

/-- Smoothed wrist-X trace of ten empty frames: constant `0.5`. -/
lemma smoothXOf_empty10 :
    SwingPhaseDetector.smoothXOf (List.replicate 10 ([] : Frame))
      = List.replicate 10 (1/2) := by
  unfold SwingPhaseDetector.smoothXOf
  rw [List.map_replicate, wristXOf_nil]
  exact movingAvg_replicate 10 3 (1/2)

/-- Horizontal speed trace of ten empty frames: identically zero. -/
lemma xSpeedOf_empty10 :
    SwingPhaseDetector.xSpeedOf (List.replicate 10 ([] : Frame)) 30
      = List.replicate 10 0 := by
  unfold SwingPhaseDetector.xSpeedOf
  simp only [smoothXOf_empty10, List.length_replicate]
  refine List.eq_replicate_iff.mpr ⟨by simp, fun b hb => ?_⟩
  simp only [List.mem_map, List.mem_range] at hb
  obtain ⟨i, hi, hfe⟩ := hb
  rw [← hfe]
  by_cases h0 : i = 0
  · rw [if_pos h0]
  · rw [if_neg h0, getD_replicate 10 i _ 0 hi, getD_replicate 10 (i - 1) _ 0 (by omega)]
    simp

/-- Smoothed speed trace of ten empty frames: identically zero. -/
lemma smoothSpeedOf_empty10 :
    SwingPhaseDetector.smoothSpeedOf (List.replicate 10 ([] : Frame)) 30
      = List.replicate 10 0 := by
  unfold SwingPhaseDetector.smoothSpeedOf
  rw [xSpeedOf_empty10]
  exact movingAvg_replicate 10 3 0

/-- On ten empty frames the top loop keeps its first window index, 1. -/
lemma topFrameOf_empty10 :
    SwingPhaseDetector.topFrameOf (List.replicate 10 ([] : Frame)) = 1 := by
  obtain ⟨t', m', heq, hle, hbd, hbr, hstrict⟩ :=
    argmin_foldl_inv (SwingPhaseDetector.smoothYOf (List.replicate 10 ([] : Frame)))
      (List.range' 2 5) (List.pairwise_lt_range' _ _ 1 (by omega)) 1
      ((SwingPhaseDetector.smoothYOf (List.replicate 10 ([] : Frame))).getD 1 0)
      (fun i hi => by
        have := List.mem_range'_1.mp hi
        omega)
  have hconst : ∀ j, j < 10 →
      (SwingPhaseDetector.smoothYOf (List.replicate 10 ([] : Frame))).getD j 0 = 1/2 := by
    intro j hj
    rw [smoothYOf_empty10]
    exact getD_replicate 10 j _ 0 hj
  have hw : SwingPhaseDetector.topWindow (List.replicate 10 ([] : Frame)).length
      = 1 :: List.range' 2 5 := by decide
  have htf : SwingPhaseDetector.topFrameOf (List.replicate 10 ([] : Frame)) = t' := by
    unfold SwingPhaseDetector.topFrameOf
    rw [hw, List.foldl_cons]
    exact congrArg Prod.fst heq
  rcases hbr with ⟨h1, _⟩ | ⟨h1, h2, h3⟩
  · rw [htf, h1]
  · exfalso
    have ht10 : t' < 10 := by
      have := List.mem_range'_1.mp h1
      omega
    rw [hconst t' ht10] at h2
    rw [hconst 1 (by omega)] at h3
    rw [h2] at h3
    exact lt_irrefl _ h3

/-- On ten empty frames the impact window is `[3, 6)`. -/
lemma impactWindow_empty10 :
    SwingPhaseDetector.impactWindow (List.replicate 10 ([] : Frame))
      = List.range' 3 3 := by
  unfold SwingPhaseDetector.impactWindow
  rw [topFrameOf_empty10, List.length_replicate]
  decide

/-- On ten empty frames the impact loop never fires and keeps `topFrame + 1 = 2`. -/
lemma impactFrameOf_empty10 :
    SwingPhaseDetector.impactFrameOf (List.replicate 10 ([] : Frame)) 30 = 2 := by
  obtain ⟨t', m', heq, hge, hbd, hbr, hstrict⟩ :=
    argmax_foldl_inv (SwingPhaseDetector.smoothSpeedOf (List.replicate 10 ([] : Frame)) 30)
      (List.range' 3 3) (List.pairwise_lt_range' _ _ 1 (by omega)) 2 0
      (fun i hi => by
        have := List.mem_range'_1.mp hi
        omega)
  have him : SwingPhaseDetector.impactFrameOf (List.replicate 10 ([] : Frame)) 30 = t' := by
    unfold SwingPhaseDetector.impactFrameOf SwingPhaseDetector.impactPairOf
    rw [impactWindow_empty10, topFrameOf_empty10]
    exact congrArg Prod.fst heq
  rcases hbr with ⟨h1, _⟩ | ⟨h1, h2, h3⟩
  · rw [him, h1]
  · exfalso
    have ht10 : t' < 10 := by
      have := List.mem_range'_1.mp h1
      omega
    rw [smoothSpeedOf_empty10, getD_replicate 10 t' 0 0 ht10] at h2
    rw [h2] at h3
    exact lt_irrefl _ h3

/-- **C3 (counterexample).** On 10 frames with no detected landmarks the wrist traces
are constant (`0.5` fallbacks), every smoothed speed is 0, and the strict-improvement
impact loop never fires: the search window is the nonempty `[3, 6)` yet the chosen
impact frame is `topFrame + 1 = 2`, which is *not* a window frame — contradicting the
claim that the impact frame is the window's maximizer whenever the window is
nonempty. -/
theorem impactFrame_claim_counterexample :
    SwingPhaseDetector.impactWindow (List.replicate 10 ([] : Frame)) ≠ [] ∧
    SwingPhaseDetector.topFrameOf (List.replicate 10 ([] : Frame)) = 1 ∧
    SwingPhaseDetector.impactFrameOf (List.replicate 10 ([] : Frame)) 30 = 2 ∧
    SwingPhaseDetector.impactFrameOf (List.replicate 10 ([] : Frame)) 30
      ∉ SwingPhaseDetector.impactWindow (List.replicate 10 ([] : Frame)) := by
  refine ⟨?_, topFrameOf_empty10, impactFrameOf_empty10, ?_⟩
  · rw [impactWindow_empty10]
    decide
  · rw [impactFrameOf_empty10, impactWindow_empty10]
    decide

/-- **C3 (amended).** The impact frame is the earliest strict maximizer of the
smoothed horizontal speed over the window `[topFrame+2, min(n-1, topFrame+⌊n/2⌋))`
whenever some window frame has strictly positive smoothed speed; otherwise — the
window being empty *or* containing no positive smoothed speed — it falls back to
`topFrame + 1`. -/
theorem impactFrame_spec (frames : List Frame) (fps : ℚ) :
    (SwingPhaseDetector.impactFrameOf frames fps = SwingPhaseDetector.topFrameOf frames + 1 ∧
      ∀ j ∈ SwingPhaseDetector.impactWindow frames,
        (SwingPhaseDetector.smoothSpeedOf frames fps).getD j 0 ≤ 0)
    ∨ (SwingPhaseDetector.impactFrameOf frames fps ∈ SwingPhaseDetector.impactWindow frames ∧
      0 < (SwingPhaseDetector.smoothSpeedOf frames fps).getD
        (SwingPhaseDetector.impactFrameOf frames fps) 0 ∧
      (∀ j ∈ SwingPhaseDetector.impactWindow frames,
        (SwingPhaseDetector.smoothSpeedOf frames fps).getD j 0
          ≤ (SwingPhaseDetector.smoothSpeedOf frames fps).getD
            (SwingPhaseDetector.impactFrameOf frames fps) 0) ∧
      (∀ j ∈ SwingPhaseDetector.impactWindow frames,
        j < SwingPhaseDetector.impactFrameOf frames fps →
        (SwingPhaseDetector.smoothSpeedOf frames fps).getD j 0
          < (SwingPhaseDetector.smoothSpeedOf frames fps).getD
            (SwingPhaseDetector.impactFrameOf frames fps) 0)) := by
  obtain ⟨t', m', heq, hge, hbd, hbr, hstrict⟩ :=
    argmax_foldl_inv (SwingPhaseDetector.smoothSpeedOf frames fps)
      (SwingPhaseDetector.impactWindow frames)
      (by
        unfold SwingPhaseDetector.impactWindow
        exact List.pairwise_lt_range' _ _ 1 (by omega))
      (SwingPhaseDetector.topFrameOf frames + 1) 0
      (fun i hi => by
        unfold SwingPhaseDetector.impactWindow at hi
        have := List.mem_range'_1.mp hi
        omega)
  have him : SwingPhaseDetector.impactFrameOf frames fps = t' := by
    unfold SwingPhaseDetector.impactFrameOf SwingPhaseDetector.impactPairOf
    rw [heq]
  have hms : SwingPhaseDetector.maxSpeedOf frames fps = m' := by
    unfold SwingPhaseDetector.maxSpeedOf SwingPhaseDetector.impactPairOf
    rw [heq]
  rcases hbr with ⟨h1, h2⟩ | ⟨h1, h2, h3⟩
  · refine Or.inl ⟨by rw [him, h1], fun j hj => ?_⟩
    have := hbd j hj
    rw [h2] at this
    exact this
  · refine Or.inr ⟨by rw [him]; exact h1, ?_, fun j hj => ?_, fun j hj hjt => ?_⟩
    · rw [him, ← h2]
      exact h3
    · rw [him, ← h2]
      exact hbd j hj
    · rw [him, ← h2]
      rw [him] at hjt
      exact hstrict j hj hjt

/-- **C3 (amended, witness).** The characterisation evaluated at a concrete
recording. -/
theorem impactFrame_spec_witness :
    (SwingPhaseDetector.impactFrameOf (List.replicate 10 ([] : Frame)) 30
        = SwingPhaseDetector.topFrameOf (List.replicate 10 ([] : Frame)) + 1 ∧
      ∀ j ∈ SwingPhaseDetector.impactWindow (List.replicate 10 ([] : Frame)),
        (SwingPhaseDetector.smoothSpeedOf (List.replicate 10 ([] : Frame)) 30).getD j 0 ≤ 0)
    ∨ (SwingPhaseDetector.impactFrameOf (List.replicate 10 ([] : Frame)) 30
        ∈ SwingPhaseDetector.impactWindow (List.replicate 10 ([] : Frame)) ∧
      0 < (SwingPhaseDetector.smoothSpeedOf (List.replicate 10 ([] : Frame)) 30).getD
        (SwingPhaseDetector.impactFrameOf (List.replicate 10 ([] : Frame)) 30) 0 ∧
      (∀ j ∈ SwingPhaseDetector.impactWindow (List.replicate 10 ([] : Frame)),
        (SwingPhaseDetector.smoothSpeedOf (List.replicate 10 ([] : Frame)) 30).getD j 0
          ≤ (SwingPhaseDetector.smoothSpeedOf (List.replicate 10 ([] : Frame)) 30).getD
            (SwingPhaseDetector.impactFrameOf (List.replicate 10 ([] : Frame)) 30) 0) ∧
      (∀ j ∈ SwingPhaseDetector.impactWindow (List.replicate 10 ([] : Frame)),
        j < SwingPhaseDetector.impactFrameOf (List.replicate 10 ([] : Frame)) 30 →
        (SwingPhaseDetector.smoothSpeedOf (List.replicate 10 ([] : Frame)) 30).getD j 0
          < (SwingPhaseDetector.smoothSpeedOf (List.replicate 10 ([] : Frame)) 30).getD
            (SwingPhaseDetector.impactFrameOf (List.replicate 10 ([] : Frame)) 30) 0)) :=
  impactFrame_spec (List.replicate 10 ([] : Frame)) 30
